import Mathlib

/-!
Verification development for the raceline tracking controller
(`controller.py`): a two-level vehicle path-tracking controller.
The vehicle state, centerline track and the controller pipeline are
embedded shallowly over the real numbers; machine floats are modelled
as exact reals.
-/

set_option maxHeartbeats 1000000

/-- Points and vectors in the plane, as used for centerline samples. -/
abbrev Point : Type := ℝ × ℝ

/-- Origin, used as the out-of-range default for list indexing. -/
def zP : Point := ((0 : ℝ), (0 : ℝ))

/-- Componentwise vector difference, `p - q` on numpy 2-vectors. -/
def vsub (p q : Point) : Point := (p.1 - q.1, p.2 - q.2)

/-- Euclidean norm of a 2-vector, `np.linalg.norm`. -/
noncomputable def vnorm (v : Point) : ℝ := Real.sqrt (v.1 ^ 2 + v.2 ^ 2)

/-- Euclidean distance between two points. -/
noncomputable def pdist (p q : Point) : ℝ := vnorm (vsub p q)

/-- Scalar (z-component) cross product of two planar vectors, `np.cross`. -/
def crossZ (v w : Point) : ℝ := v.1 * w.2 - v.2 * w.1

/-- Linear interpolation `p * (1 - r) + q * r` between two points. -/
def lerp (p q : Point) (r : ℝ) : Point :=
  (p.1 * (1 - r) + q.1 * r, p.2 * (1 - r) + q.2 * r)

/-- Clamp `x` into `[lo, hi]`, mirroring `np.clip`. -/
noncomputable def clip (x lo hi : ℝ) : ℝ := min (max x lo) hi

/-- Sign function with `npSign 0 = 0`, mirroring `np.sign`. -/
noncomputable def npSign (x : ℝ) : ℝ := if x < 0 then -1 else if 0 < x then 1 else 0

/-- Scan of `np.argmin`: walk the remaining distances keeping the first
index attaining the strictly smallest value seen so far.  `i` is the index
of the head of `ds` in the full list, `bi`/`bv` the best index and value. -/
noncomputable def argminAux : List ℝ → ℕ → ℕ → ℝ → ℕ
  | [], _, bi, _ => bi
  | d :: ds, i, bi, bv =>
      if d < bv then argminAux ds (i + 1) i d else argminAux ds (i + 1) bi bv

/-- Index of the first minimum of a list of reals, `np.argmin`
(0 on the empty list, which numpy rejects). -/
noncomputable def argminList : List ℝ → ℕ
  | [] => 0
  | d :: ds => argminAux ds 1 0 d

/-- Vehicle state `[x, y, steering, velocity, heading]`
(source `state[0] .. state[4]`). -/
structure VState where
  x : ℝ
  y : ℝ
  steer : ℝ
  v : ℝ
  heading : ℝ

/-- Controller session state, the `controller_state` dict of the source:
last closest index and the (unused) velocity PID accumulators. -/
structure CState where
  last_idx : ℕ
  velocity_integral : ℝ
  velocity_prev_error : ℝ

/-- Initial value of `controller_state` in the source. -/
def controllerStateInit : CState := ⟨0, 0, 0⟩

/-- Source `find_closest_point_on_track`: full scan of the distances from
`pos` to each centerline point; returns the `np.argmin` index and the
distance at that index.  The hint index `last_idx` is accepted but unused. -/
noncomputable def find_closest_point_on_track (pos : Point) (track : List Point)
    (last_idx : ℕ) : ℕ × ℝ :=
  let distances := track.map (fun p => pdist p pos)
  let closest_idx := argminList distances
  (closest_idx, distances.getD closest_idx 0)

/-- Loop body of source `find_lookahead_point`: walk at most `fuel` cyclic
segments from `cur` with accumulated arc length `acc`; on reaching the
lookahead distance, interpolate into the current segment (denominator
floored at 0.001, interpolation fraction clipped to `[0, 1]`). -/
noncomputable def lookaheadLoop (track : List Point) (la : ℝ) :
    ℕ → ℕ → ℝ → Point × ℕ
  | 0, cur, _ => (track.getD cur zP, cur)
  | fuel + 1, cur, acc =>
      let next := (cur + 1) % track.length
      let seg := pdist (track.getD next zP) (track.getD cur zP)
      if la ≤ acc + seg then
        let frac := clip ((la - acc) / max seg 0.001) 0 1
        (lerp (track.getD cur zP) (track.getD next zP) frac, next)
      else
        lookaheadLoop track la fuel next (acc + seg)

/-- Source `find_lookahead_point`: run the walk for `len(track)` iterations
starting at `start`; `pos` is accepted but unused, as in the source. -/
noncomputable def find_lookahead_point (pos : Point) (track : List Point)
    (start : ℕ) (la : ℝ) : Point × ℕ :=
  lookaheadLoop track la track.length start 0

/-- Index `(idx - window) % n_points` with Python (floored) semantics on
negative values. -/
def curvIdxPrev (track : List Point) (idx window : ℕ) : ℕ :=
  (((idx : ℤ) - (window : ℤ)) % (track.length : ℤ)).toNat

/-- Index `(idx + window) % n_points`. -/
def curvIdxNext (track : List Point) (idx window : ℕ) : ℕ :=
  (idx + window) % track.length

/-- Chord vector `v1 = p2 - p1` of the curvature triple. -/
noncomputable def curvV1 (track : List Point) (idx window : ℕ) : Point :=
  vsub (track.getD idx zP) (track.getD (curvIdxPrev track idx window) zP)

/-- Chord vector `v2 = p3 - p2` of the curvature triple. -/
noncomputable def curvV2 (track : List Point) (idx window : ℕ) : Point :=
  vsub (track.getD (curvIdxNext track idx window) zP) (track.getD idx zP)

/-- Cross product `np.cross(v1, v2)` of the two chord vectors. -/
noncomputable def curvCross (track : List Point) (idx window : ℕ) : ℝ :=
  crossZ (curvV1 track idx window) (curvV2 track idx window)

/-- Denominator `(norm(v1) * norm(v2)) ** 1.5` of the curvature formula. -/
noncomputable def curvDenom (track : List Point) (idx window : ℕ) : ℝ :=
  (vnorm (curvV1 track idx window) * vnorm (curvV2 track idx window)) ^ (1.5 : ℝ)

/-- Source `calculate_curvature`: two-chord curvature estimate at `idx`
from the points `window` samples away, 0 when the denominator is at or
below the floor `1e-6`. -/
noncomputable def calculate_curvature (track : List Point) (idx window : ℕ) : ℝ :=
  if 1e-6 < curvDenom track idx window then
    |2 * curvCross track idx window / curvDenom track idx window|
  else 0

/-- Adaptive lookahead distance of the outer controller (source lines
116-131): base 8.0 plus velocity term, derated multiplicatively by the
cross-track-error tier, clipped into `[6, 15]`. -/
noncomputable def lookaheadDist (velocity cte : ℝ) : ℝ :=
  let lookahead := 8.0 + 0.15 * min velocity 30
  let lookahead :=
    if 2.0 < cte then lookahead * 0.8
    else if 1.0 < cte then lookahead * 0.9
    else lookahead
  clip lookahead 6.0 15.0

/-- Pure-pursuit steering command (source lines 136-163): rotate the
lookahead offset into the vehicle frame, apply `atan(2 L_wb y / L²)` when
the lookahead distance exceeds 0.1 (0 otherwise), add the clipped
cross-track correction, clip to `[-0.9, 0.9]`. -/
noncomputable def steerCmd (pos : Point) (heading : ℝ) (lp : Point) (cte : ℝ) : ℝ :=
  let dx := lp.1 - pos.1
  let dy := lp.2 - pos.2
  let cos_h := Real.cos heading
  let sin_h := Real.sin heading
  let target_x := cos_h * dx + sin_h * dy
  let target_y := -sin_h * dx + cos_h * dy
  let L := Real.sqrt (target_x ^ 2 + target_y ^ 2)
  let desired_steering :=
    if 0.1 < L then
      let wheelbase : ℝ := 3.6
      let ds := Real.arctan (2.0 * wheelbase * target_y / (L * L))
      if 1.5 < cte then
        ds + clip (0.05 * (cte - 1.5) * npSign target_y) (-0.1) 0.1
      else ds
    else 0.0
  clip desired_steering (-0.9) 0.9

/-- Curvature-tiered target speed with cross-track-error derating (source
lines 165-182), the target velocity before the rate-limiting step. -/
noncomputable def speedPlan (curvature cte : ℝ) : ℝ :=
  let target :=
    if 0.1 < curvature then (12.0 : ℝ)
    else if 0.05 < curvature then 18.0
    else if 0.02 < curvature then 25.0
    else 35.0
  if 2.0 < cte then min target 15.0
  else if 1.0 < cte then target * 0.85
  else target

/-- Closest-point query of one controller tick: seeded by the stored
`last_idx` (which the search ignores). -/
noncomputable def closestOut (cs : CState) (s : VState) (track : List Point) : ℕ × ℝ :=
  find_closest_point_on_track (s.x, s.y) track cs.last_idx

/-- Cross-track error of one controller tick. -/
noncomputable def cteOf (cs : CState) (s : VState) (track : List Point) : ℝ :=
  (closestOut cs s track).2

/-- Lookahead point and index of one controller tick. -/
noncomputable def lookOut (cs : CState) (s : VState) (track : List Point) : Point × ℕ :=
  find_lookahead_point (s.x, s.y) track (closestOut cs s track).1
    (lookaheadDist s.v (cteOf cs s track))

/-- Curvature evaluated at the lookahead index of one controller tick
(source line 166, window 5). -/
noncomputable def curvAtLookahead (cs : CState) (s : VState) (track : List Point) : ℝ :=
  calculate_curvature track (lookOut cs s track).2 5

/-- Target velocity of one tick before the rate-limiting step
(source line 182, after the curvature tier and the error derate). -/
noncomputable def preRateTarget (cs : CState) (s : VState) (track : List Point) : ℝ :=
  speedPlan (curvAtLookahead cs s track) (cteOf cs s track)

/-- Steering output of one controller tick. -/
noncomputable def steerOf (cs : CState) (s : VState) (track : List Point) : ℝ :=
  steerCmd (s.x, s.y) s.heading (lookOut cs s track).1 (cteOf cs s track)

/-- Source `controller`: one outer-layer tick.  Returns the command pair
`[desired_steering, desired_velocity]` and the updated session state (the
source mutates the global `controller_state` dict; here the write of
`last_idx` is returned explicitly).  `prm` is the unused parameter blob. -/
noncomputable def controller (cs : CState) (s : VState) (prm : List ℝ)
    (track : List Point) : (ℝ × ℝ) × CState :=
  let desired_velocity :=
    if 0 < s.v then clip (preRateTarget cs s track) (s.v - 10.0) (s.v + 10.0)
    else preRateTarget cs s track
  ((steerOf cs s track, desired_velocity),
   { cs with last_idx := (closestOut cs s track).1 })

/-- Source `lower_controller`: asserts the desired command has shape
`(2,)` (modelled as `none` on violation), then produces the clipped
velocity-scheduled steering rate and the clipped proportional
acceleration. -/
noncomputable def lower_controller (s : VState) (desired : List ℝ)
    (prm : List ℝ) : Option (ℝ × ℝ) :=
  if desired.length = 2 then
    let current_steering := s.steer
    let current_velocity := s.v
    let desired_steering := desired.getD 0 0
    let desired_velocity := desired.getD 1 0
    let steering_error := desired_steering - current_steering
    let steering_gain : ℝ :=
      if current_velocity < 10 then 2.0
      else if current_velocity < 25 then 1.8
      else 1.5
    let steering_velocity := clip (steering_gain * steering_error) (-0.4) 0.4
    let velocity_error := desired_velocity - current_velocity
    let kp : ℝ := 1.5
    let acceleration := clip (kp * velocity_error) (-15.0) 15.0
    some (steering_velocity, acceleration)
  else none

/-- Division that signals failure (`none`) on a zero denominator, used to
make every division of the pipeline explicit in the checked variant. -/
noncomputable def cdiv (a b : ℝ) : Option ℝ := if b = 0 then none else some (a / b)

/-- Checked variant of the lookahead walk: the interpolation division goes
through `cdiv`. -/
noncomputable def lookaheadLoopE (track : List Point) (la : ℝ) :
    ℕ → ℕ → ℝ → Option (Point × ℕ)
  | 0, cur, _ => some (track.getD cur zP, cur)
  | fuel + 1, cur, acc =>
      let next := (cur + 1) % track.length
      let seg := pdist (track.getD next zP) (track.getD cur zP)
      if la ≤ acc + seg then
        (cdiv (la - acc) (max seg 0.001)).map fun q =>
          (lerp (track.getD cur zP) (track.getD next zP) (clip q 0 1), next)
      else
        lookaheadLoopE track la fuel next (acc + seg)

/-- Checked variant of `find_lookahead_point`. -/
noncomputable def find_lookahead_pointE (pos : Point) (track : List Point)
    (start : ℕ) (la : ℝ) : Option (Point × ℕ) :=
  lookaheadLoopE track la track.length start 0

/-- Checked variant of `calculate_curvature`: the division by the guarded
denominator goes through `cdiv`. -/
noncomputable def calculate_curvatureE (track : List Point) (idx window : ℕ) :
    Option ℝ :=
  if 1e-6 < curvDenom track idx window then
    (cdiv (2 * curvCross track idx window) (curvDenom track idx window)).map abs
  else some 0

/-- Checked variant of the pure-pursuit steering command: the division by
`L * L` goes through `cdiv`. -/
noncomputable def steerCmdE (pos : Point) (heading : ℝ) (lp : Point) (cte : ℝ) :
    Option ℝ :=
  let dx := lp.1 - pos.1
  let dy := lp.2 - pos.2
  let cos_h := Real.cos heading
  let sin_h := Real.sin heading
  let target_x := cos_h * dx + sin_h * dy
  let target_y := -sin_h * dx + cos_h * dy
  let L := Real.sqrt (target_x ^ 2 + target_y ^ 2)
  if 0.1 < L then
    (cdiv (2.0 * 3.6 * target_y) (L * L)).map fun q =>
      let ds := Real.arctan q
      let ds :=
        if 1.5 < cte then
          ds + clip (0.05 * (cte - 1.5) * npSign target_y) (-0.1) 0.1
        else ds
      clip ds (-0.9) 0.9
  else some (clip 0.0 (-0.9) 0.9)

/-- Checked variant of the outer-layer tick: every division of the source
is routed through `cdiv`, so the result is `none` as soon as any division
hits a zero denominator. -/
noncomputable def controllerE (cs : CState) (s : VState) (prm : List ℝ)
    (track : List Point) : Option (ℝ × ℝ) :=
  let c := find_closest_point_on_track (s.x, s.y) track cs.last_idx
  let la := lookaheadDist s.v c.2
  (find_lookahead_pointE (s.x, s.y) track c.1 la).bind fun li =>
    (steerCmdE (s.x, s.y) s.heading li.1 c.2).bind fun st =>
      (calculate_curvatureE track li.2 5).bind fun curvature =>
        let target := speedPlan curvature c.2
        some (st, if 0 < s.v then clip target (s.v - 10.0) (s.v + 10.0) else target)

/-- Cyclic segment length starting at sample `i` (indices reduced mod the
track length, matching the walk of `find_lookahead_point`). -/
noncomputable def segLen (track : List Point) (i : ℕ) : ℝ :=
  pdist (track.getD ((i + 1) % track.length) zP) (track.getD (i % track.length) zP)

/-- Arc length of the first `k` cyclic segments starting at `start`. -/
noncomputable def cycSum (track : List Point) (start k : ℕ) : ℝ :=
  ∑ j ∈ Finset.range k, segLen track (start + j)

/-- Total track length: the sum of all cyclic segment lengths. -/
noncomputable def totalLen (track : List Point) : ℝ :=
  cycSum track 0 track.length

/-- Number of segment steps consumed by the lookahead walk (the step that
reaches the lookahead distance included); equals the fuel when the target
distance is never reached. -/
noncomputable def lookStepsLoop (track : List Point) (la : ℝ) :
    ℕ → ℕ → ℝ → ℕ
  | 0, _, _ => 0
  | fuel + 1, cur, acc =>
      let next := (cur + 1) % track.length
      let seg := pdist (track.getD next zP) (track.getD cur zP)
      if la ≤ acc + seg then 1
      else 1 + lookStepsLoop track la fuel next (acc + seg)

/-- Steps consumed by `find_lookahead_point track start la`. -/
noncomputable def lookSteps (track : List Point) (start : ℕ) (la : ℝ) : ℕ :=
  lookStepsLoop track la track.length start 0

/-- Curvature formula exactly as the specification words it: the two-chord
value except that 0 is returned when the denominator is strictly below the
floor `1e-6`. -/
noncomputable def curvatureClaimed (track : List Point) (idx window : ℕ) : ℝ :=
  if curvDenom track idx window < 1e-6 then 0
  else |2 * curvCross track idx window| / curvDenom track idx window

/-- Straight test track: ten points on the x-axis spaced 2 m apart. -/
noncomputable def trackLine : List Point :=
  [(0, 0), (2, 0), (4, 0), (6, 0), (8, 0), (10, 0), (12, 0), (14, 0), (16, 0), (18, 0)]

/-- Small cyclic test track: three points on the x-axis spaced 1 m apart
(cyclic segment lengths 1, 1, 2; total length 4). -/
noncomputable def trackTri : List Point := [(0, 0), (1, 0), (2, 0)]

/-- Corner test track: nine points along the x-axis spaced 1 m apart,
then five points up the vertical through `(8, 0)`; a right-angle corner
at index 8. -/
noncomputable def trackCorner : List Point :=
  [(0, 0), (1, 0), (2, 0), (3, 0), (4, 0), (5, 0), (6, 0), (7, 0), (8, 0),
   (8, 1), (8, 2), (8, 3), (8, 4), (8, 5)]

/-- Degenerate three-point track whose curvature denominator lands exactly
on the numeric floor `1e-6`. -/
noncomputable def trackTiny : List Point := [(0, 0), (0.01, 0), (0.01, 0.01)]

/-- Vehicle at the origin at rest. -/
noncomputable def stZero : VState := ⟨0, 0, 0, 0, 0⟩

/-- Vehicle at rest, 1.5 m laterally off the first track point. -/
noncomputable def stOff : VState := ⟨0, -1.5, 0, 0, 0⟩

theorem clip_le_hi (x lo hi : ℝ) : clip x lo hi ≤ hi := min_le_right _ _

theorem lo_le_clip (x lo hi : ℝ) (h : lo ≤ hi) : lo ≤ clip x lo hi :=
  le_min (le_trans (le_max_right _ _) (le_refl _)) h

theorem clip_eq_of_mem (x lo hi : ℝ) (h1 : lo ≤ x) (h2 : x ≤ hi) :
    clip x lo hi = x := by
  unfold clip
  rw [max_eq_left h1, min_eq_left h2]

theorem pdist_nonneg (p q : Point) : 0 ≤ pdist p q := Real.sqrt_nonneg _

theorem pdist_self (p : Point) : pdist p p = 0 := by
  unfold pdist vnorm vsub
  simp [Real.sqrt_eq_zero']

theorem sqrt_eval {a b : ℝ} (hb : 0 ≤ b) (h : b ^ 2 = a) : Real.sqrt a = b := by
  rw [← h]
  exact Real.sqrt_sq hb

theorem pdist_eval {a b c d e : ℝ} (he : 0 ≤ e)
    (h : e ^ 2 = (a - c) ^ 2 + (b - d) ^ 2) :
    pdist (a, b) (c, d) = e := by
  unfold pdist vnorm vsub
  exact sqrt_eval he h

theorem getD_map (f : Point → ℝ) (l : List Point) (j : ℕ) (hj : j < l.length) :
    (l.map f).getD j 0 = f (l.getD j zP) := by
  induction l generalizing j with
  | nil => simp at hj
  | cons p ps ih =>
      cases j with
      | zero => simp [List.getD_cons_zero, List.getD_cons_succ]
      | succ k =>
          simp only [List.length_cons, Nat.succ_lt_succ_iff] at hj
          simpa [List.getD_cons_zero, List.getD_cons_succ] using ih k hj

theorem argminAux_spec (ds : List ℝ) :
    ∀ (i bi : ℕ) (bv : ℝ),
      (argminAux ds i bi bv = bi ∧ ∀ k, k < ds.length → bv ≤ ds.getD k 0) ∨
      (∃ k, k < ds.length ∧ argminAux ds i bi bv = i + k ∧ ds.getD k 0 < bv ∧
        (∀ j, j < ds.length → ds.getD k 0 ≤ ds.getD j 0) ∧
        (∀ j, j < k → ds.getD k 0 < ds.getD j 0)) := by
  induction ds with
  | nil =>
      intro i bi bv
      left
      exact ⟨rfl, fun k hk => absurd hk (by simp)⟩
  | cons d ds ih =>
      intro i bi bv
      by_cases hd : d < bv
      · rcases ih (i + 1) i d with ⟨h1, h2⟩ | ⟨k, hk, heq, hlt, hmin, hfirst⟩
        · right
          refine ⟨0, by simp, ?_, ?_, ?_, ?_⟩
          · simpa [argminAux, hd] using h1
          · simpa [List.getD_cons_zero, List.getD_cons_succ] using hd
          · intro j hj
            cases j with
            | zero => simp [List.getD_cons_zero, List.getD_cons_succ]
            | succ m =>
                simp only [List.length_cons, Nat.succ_lt_succ_iff] at hj
                simpa [List.getD_cons_zero, List.getD_cons_succ] using h2 m hj
          · intro j hj
            exact absurd hj (Nat.not_lt_zero _)
        · right
          refine ⟨k + 1, by simpa using hk, ?_, ?_, ?_, ?_⟩
          · simp only [argminAux, if_pos hd]
            rw [heq]
            omega
          · simp only [List.getD_cons_zero, List.getD_cons_succ]
            exact lt_trans hlt hd
          · intro j hj
            cases j with
            | zero =>
                simp only [List.getD_cons_zero, List.getD_cons_succ]
                exact le_of_lt hlt
            | succ m =>
                simp only [List.length_cons, Nat.succ_lt_succ_iff] at hj
                simpa [List.getD_cons_zero, List.getD_cons_succ] using hmin m hj
          · intro j hj
            cases j with
            | zero =>
                simp only [List.getD_cons_zero, List.getD_cons_succ]
                exact hlt
            | succ m =>
                simp only [Nat.succ_lt_succ_iff] at hj
                simpa [List.getD_cons_zero, List.getD_cons_succ] using hfirst m hj
      · push_neg at hd
        rcases ih (i + 1) bi bv with ⟨h1, h2⟩ | ⟨k, hk, heq, hlt, hmin, hfirst⟩
        · left
          refine ⟨by simpa [argminAux, not_lt.mpr hd] using h1, ?_⟩
          intro k hk
          cases k with
          | zero => simpa [List.getD_cons_zero, List.getD_cons_succ] using hd
          | succ m =>
              simp only [List.length_cons, Nat.succ_lt_succ_iff] at hk
              simpa [List.getD_cons_zero, List.getD_cons_succ] using h2 m hk
        · right
          refine ⟨k + 1, by simpa using hk, ?_, ?_, ?_, ?_⟩
          · simp only [argminAux, if_neg (not_lt.mpr hd)]
            rw [heq]
            omega
          · simpa [List.getD_cons_zero, List.getD_cons_succ] using hlt
          · intro j hj
            cases j with
            | zero =>
                simp only [List.getD_cons_zero, List.getD_cons_succ]
                exact le_of_lt (lt_of_lt_of_le hlt hd)
            | succ m =>
                simp only [List.length_cons, Nat.succ_lt_succ_iff] at hj
                simpa [List.getD_cons_zero, List.getD_cons_succ] using hmin m hj
          · intro j hj
            cases j with
            | zero =>
                simp only [List.getD_cons_zero, List.getD_cons_succ]
                exact lt_of_lt_of_le hlt hd
            | succ m =>
                simp only [Nat.succ_lt_succ_iff] at hj
                simpa [List.getD_cons_zero, List.getD_cons_succ] using hfirst m hj

theorem argminList_spec (l : List ℝ) (h : l ≠ []) :
    argminList l < l.length ∧
    (∀ j, j < l.length → l.getD (argminList l) 0 ≤ l.getD j 0) ∧
    (∀ j, j < argminList l → l.getD (argminList l) 0 < l.getD j 0) := by
  cases l with
  | nil => exact absurd rfl h
  | cons d ds =>
      rcases argminAux_spec ds 1 0 d with ⟨h1, h2⟩ | ⟨k, hk, heq, hlt, hmin, hfirst⟩
      · refine ⟨?_, ?_, ?_⟩
        · simp [argminList, h1]
        · intro j hj
          simp only [argminList, h1]
          cases j with
          | zero => simp [List.getD_cons_zero, List.getD_cons_succ]
          | succ m =>
              simp only [List.length_cons, Nat.succ_lt_succ_iff] at hj
              simpa [List.getD_cons_zero, List.getD_cons_succ] using h2 m hj
        · intro j hj
          simp only [argminList, h1] at hj
          exact absurd hj (Nat.not_lt_zero _)
      · have hbig : argminList (d :: ds) = k + 1 := by
          simp only [argminList, heq]
          omega
        refine ⟨?_, ?_, ?_⟩
        · rw [hbig]
          simpa using hk
        · intro j hj
          rw [hbig]
          simp only [List.getD_cons_zero, List.getD_cons_succ]
          cases j with
          | zero =>
              simpa [List.getD_cons_zero, List.getD_cons_succ] using le_of_lt hlt
          | succ m =>
              simp only [List.length_cons, Nat.succ_lt_succ_iff] at hj
              simpa [List.getD_cons_zero, List.getD_cons_succ] using hmin m hj
        · intro j hj
          rw [hbig] at hj ⊢
          simp only [List.getD_cons_zero, List.getD_cons_succ]
          cases j with
          | zero =>
              simpa [List.getD_cons_zero, List.getD_cons_succ] using hlt
          | succ m =>
              simp only [Nat.succ_lt_succ_iff] at hj
              simpa [List.getD_cons_zero, List.getD_cons_succ] using hfirst m hj

theorem argminList_eq_zero (l : List ℝ) (h : l ≠ [])
    (hmin : ∀ j, j < l.length → l.getD 0 0 ≤ l.getD j 0) : argminList l = 0 := by
  rcases argminList_spec l h with ⟨hlen, _, hfirst⟩
  by_contra hne
  have h0 : 0 < argminList l := Nat.pos_of_ne_zero hne
  exact absurd (hmin (argminList l) hlen) (not_le.mpr (hfirst 0 h0))

theorem find_closest_fst (pos : Point) (track : List Point) (hint : ℕ) :
    (find_closest_point_on_track pos track hint).1 =
      argminList (track.map fun p => pdist p pos) := rfl

theorem find_closest_snd (pos : Point) (track : List Point) (hint : ℕ) :
    (find_closest_point_on_track pos track hint).2 =
      (track.map fun p => pdist p pos).getD
        (argminList (track.map fun p => pdist p pos)) 0 := rfl

theorem find_closest_eq_head (pos : Point) (track : List Point) (hint : ℕ)
    (h : track ≠ [])
    (hmin : ∀ j, j < track.length → pdist (track.getD 0 zP) pos ≤ pdist (track.getD j zP) pos) :
    find_closest_point_on_track pos track hint = (0, pdist (track.getD 0 zP) pos) := by
  have hne : (track.map fun p => pdist p pos) ≠ [] := by
    simpa using h
  have h0 : 0 < track.length := List.length_pos.mpr h
  have hz : argminList (track.map fun p => pdist p pos) = 0 := by
    apply argminList_eq_zero _ hne
    intro j hj
    rw [List.length_map] at hj
    rw [getD_map _ _ _ hj, getD_map _ _ _ h0]
    exact hmin j hj
  have h2 := find_closest_snd pos track hint
  rw [hz, getD_map _ _ _ h0] at h2
  have h1 := find_closest_fst pos track hint
  rw [hz] at h1
  calc find_closest_point_on_track pos track hint
      = ((find_closest_point_on_track pos track hint).1,
         (find_closest_point_on_track pos track hint).2) := rfl
    _ = (0, pdist (track.getD 0 zP) pos) := by rw [h1, h2]

theorem lookaheadLoop_go_eval (track : List Point) (la : ℝ)
    (fuelS fuel cur : ℕ) (acc : ℝ) (next : ℕ) (seg acc2 : ℝ)
    (hfuel : fuelS = fuel + 1)
    (hnext : (cur + 1) % track.length = next)
    (hseg : pdist (track.getD next zP) (track.getD cur zP) = seg)
    (hcond : ¬ la ≤ acc + seg)
    (hacc : acc + seg = acc2) :
    lookaheadLoop track la fuelS cur acc = lookaheadLoop track la fuel next acc2 := by
  subst hfuel
  simp only [lookaheadLoop]
  rw [hnext, hseg, if_neg hcond, hacc]

theorem lookaheadLoop_stop_idx (track : List Point) (la : ℝ)
    (fuelS fuel cur : ℕ) (acc : ℝ) (next : ℕ) (seg : ℝ)
    (hfuel : fuelS = fuel + 1)
    (hnext : (cur + 1) % track.length = next)
    (hseg : pdist (track.getD next zP) (track.getD cur zP) = seg)
    (hcond : la ≤ acc + seg) :
    (lookaheadLoop track la fuelS cur acc).2 = next := by
  subst hfuel
  simp only [lookaheadLoop]
  rw [hnext, hseg, if_pos hcond]

theorem walk_trackLine : (find_lookahead_point zP trackLine 0 8).2 = 4 := by
  have h1 : pdist (trackLine.getD 1 zP) (trackLine.getD 0 zP) = 2 := by
    rw [show trackLine.getD 1 zP = (((2 : ℝ)), ((0 : ℝ))) from rfl,
        show trackLine.getD 0 zP = (((0 : ℝ)), ((0 : ℝ))) from rfl]
    exact pdist_eval (by norm_num) (by norm_num)
  have h2 : pdist (trackLine.getD 2 zP) (trackLine.getD 1 zP) = 2 := by
    rw [show trackLine.getD 2 zP = (((4 : ℝ)), ((0 : ℝ))) from rfl,
        show trackLine.getD 1 zP = (((2 : ℝ)), ((0 : ℝ))) from rfl]
    exact pdist_eval (by norm_num) (by norm_num)
  have h3 : pdist (trackLine.getD 3 zP) (trackLine.getD 2 zP) = 2 := by
    rw [show trackLine.getD 3 zP = (((6 : ℝ)), ((0 : ℝ))) from rfl,
        show trackLine.getD 2 zP = (((4 : ℝ)), ((0 : ℝ))) from rfl]
    exact pdist_eval (by norm_num) (by norm_num)
  have h4 : pdist (trackLine.getD 4 zP) (trackLine.getD 3 zP) = 2 := by
    rw [show trackLine.getD 4 zP = (((8 : ℝ)), ((0 : ℝ))) from rfl,
        show trackLine.getD 3 zP = (((6 : ℝ)), ((0 : ℝ))) from rfl]
    exact pdist_eval (by norm_num) (by norm_num)
  unfold find_lookahead_point
  rw [show trackLine.length = 10 from rfl]
  rw [lookaheadLoop_go_eval trackLine 8 10 9 0 0 1 2 2 rfl rfl h1 (by norm_num) (by norm_num)]
  rw [lookaheadLoop_go_eval trackLine 8 9 8 1 2 2 2 4 rfl rfl h2 (by norm_num) (by norm_num)]
  rw [lookaheadLoop_go_eval trackLine 8 8 7 2 4 3 2 6 rfl rfl h3 (by norm_num) (by norm_num)]
  exact lookaheadLoop_stop_idx trackLine 8 7 6 3 6 4 2 rfl rfl h4 (by norm_num)

theorem corner_getD_horiz (k : ℕ) (hk : k ≤ 8) :
    trackCorner.getD k zP = (((k : ℝ)), ((0 : ℝ))) := by
  interval_cases k <;> norm_num [trackCorner, List.getD_cons_zero, List.getD_cons_succ]

theorem corner_seg (k : ℕ) (hk : k ≤ 7) :
    pdist (trackCorner.getD (k + 1) zP) (trackCorner.getD k zP) = 1 := by
  rw [corner_getD_horiz (k + 1) (by omega), corner_getD_horiz k (by omega)]
  refine pdist_eval (by norm_num) ?_
  push_cast
  ring

theorem walk_trackCorner (la : ℝ) (h7 : 7 < la) (h8 : la ≤ 8) :
    (find_lookahead_point zP trackCorner 0 la).2 = 8 := by
  unfold find_lookahead_point
  rw [show trackCorner.length = 14 from rfl]
  rw [lookaheadLoop_go_eval trackCorner la 14 13 0 0 1 1 1 rfl rfl
        (corner_seg 0 (by norm_num)) (by intro h; linarith) (by norm_num)]
  rw [lookaheadLoop_go_eval trackCorner la 13 12 1 1 2 1 2 rfl rfl
        (corner_seg 1 (by norm_num)) (by intro h; linarith) (by norm_num)]
  rw [lookaheadLoop_go_eval trackCorner la 12 11 2 2 3 1 3 rfl rfl
        (corner_seg 2 (by norm_num)) (by intro h; linarith) (by norm_num)]
  rw [lookaheadLoop_go_eval trackCorner la 11 10 3 3 4 1 4 rfl rfl
        (corner_seg 3 (by norm_num)) (by intro h; linarith) (by norm_num)]
  rw [lookaheadLoop_go_eval trackCorner la 10 9 4 4 5 1 5 rfl rfl
        (corner_seg 4 (by norm_num)) (by intro h; linarith) (by norm_num)]
  rw [lookaheadLoop_go_eval trackCorner la 9 8 5 5 6 1 6 rfl rfl
        (corner_seg 5 (by norm_num)) (by intro h; linarith) (by norm_num)]
  rw [lookaheadLoop_go_eval trackCorner la 8 7 6 6 7 1 7 rfl rfl
        (corner_seg 6 (by norm_num)) (by intro h; linarith) (by norm_num)]
  exact lookaheadLoop_stop_idx trackCorner la 7 6 7 7 8 1 rfl rfl
    (corner_seg 7 (by norm_num)) (by linarith)

theorem walk_trackTri_overrun :
    find_lookahead_point zP trackTri 0 10 = ((((0 : ℝ)), ((0 : ℝ))), 0) := by
  have h1 : pdist (trackTri.getD 1 zP) (trackTri.getD 0 zP) = 1 := by
    rw [show trackTri.getD 1 zP = (((1 : ℝ)), ((0 : ℝ))) from rfl,
        show trackTri.getD 0 zP = (((0 : ℝ)), ((0 : ℝ))) from rfl]
    exact pdist_eval (by norm_num) (by norm_num)
  have h2 : pdist (trackTri.getD 2 zP) (trackTri.getD 1 zP) = 1 := by
    rw [show trackTri.getD 2 zP = (((2 : ℝ)), ((0 : ℝ))) from rfl,
        show trackTri.getD 1 zP = (((1 : ℝ)), ((0 : ℝ))) from rfl]
    exact pdist_eval (by norm_num) (by norm_num)
  have h3 : pdist (trackTri.getD 0 zP) (trackTri.getD 2 zP) = 2 := by
    rw [show trackTri.getD 2 zP = (((2 : ℝ)), ((0 : ℝ))) from rfl,
        show trackTri.getD 0 zP = (((0 : ℝ)), ((0 : ℝ))) from rfl]
    exact pdist_eval (by norm_num) (by norm_num)
  unfold find_lookahead_point
  rw [show trackTri.length = 3 from rfl]
  rw [lookaheadLoop_go_eval trackTri 10 3 2 0 0 1 1 1 rfl rfl h1 (by norm_num) (by norm_num)]
  rw [lookaheadLoop_go_eval trackTri 10 2 1 1 1 2 1 2 rfl rfl h2 (by norm_num) (by norm_num)]
  rw [lookaheadLoop_go_eval trackTri 10 1 0 2 2 0 2 4 rfl rfl h3 (by norm_num) (by norm_num)]
  simp only [lookaheadLoop]
  rw [show trackTri.getD 0 zP = (((0 : ℝ)), ((0 : ℝ))) from rfl]

theorem le_pdist {a b c d e : ℝ} (he : 0 ≤ e)
    (h : e ^ 2 ≤ (a - c) ^ 2 + (b - d) ^ 2) : e ≤ pdist (a, b) (c, d) := by
  unfold pdist vnorm vsub
  calc e = Real.sqrt (e ^ 2) := (Real.sqrt_sq he).symm
    _ ≤ _ := Real.sqrt_le_sqrt h

theorem rpow_threehalves {x : ℝ} (hx : 0 ≤ x) :
    ((x ^ 2 : ℝ)) ^ ((1.5 : ℝ)) = x ^ 3 := by
  rw [← Real.rpow_natCast x 2, ← Real.rpow_mul hx, ← Real.rpow_natCast x 3]
  congr 1
  push_cast
  norm_num

theorem calculate_curvature_of_cross_zero (track : List Point) (idx window : ℕ)
    (h : curvCross track idx window = 0) : calculate_curvature track idx window = 0 := by
  unfold calculate_curvature
  rw [h]
  simp

theorem lookaheadDist_eval_zero : lookaheadDist 0 0 = 8 := by
  unfold lookaheadDist clip
  norm_num [min_def, max_def]

theorem lookaheadDist_eval_mid : lookaheadDist 0 1.5 = 7.2 := by
  unfold lookaheadDist clip
  norm_num [min_def, max_def]

theorem closest_line :
    find_closest_point_on_track zP trackLine 0 = (0, 0) := by
  have h := find_closest_eq_head zP trackLine 0 (by simp [trackLine]) ?hmin
  case hmin =>
    intro j hj
    rw [show trackLine.getD 0 zP = zP from rfl, pdist_self]
    exact pdist_nonneg _ _
  rw [h, show trackLine.getD 0 zP = zP from rfl, pdist_self]

theorem cross_line : curvCross trackLine 4 5 = 0 := by
  unfold curvCross curvV1 curvV2
  rw [show curvIdxPrev trackLine 4 5 = 9 from rfl,
      show curvIdxNext trackLine 4 5 = 9 from rfl,
      show trackLine.getD 9 zP = (((18 : ℝ)), ((0 : ℝ))) from rfl,
      show trackLine.getD 4 zP = (((8 : ℝ)), ((0 : ℝ))) from rfl]
  unfold vsub crossZ
  norm_num

theorem target_line : preRateTarget controllerStateInit stZero trackLine = 35 := by
  have hc : closestOut controllerStateInit stZero trackLine = (0, 0) := closest_line
  have hcte : cteOf controllerStateInit stZero trackLine = 0 := by
    unfold cteOf
    rw [hc]
  have hidx : (lookOut controllerStateInit stZero trackLine).2 = 4 := by
    unfold lookOut
    rw [hc, hcte]
    show (find_lookahead_point zP trackLine 0 (lookaheadDist 0 0)).2 = 4
    rw [lookaheadDist_eval_zero]
    exact walk_trackLine
  have hcurv : curvAtLookahead controllerStateInit stZero trackLine = 0 := by
    unfold curvAtLookahead
    rw [hidx]
    exact calculate_curvature_of_cross_zero trackLine 4 5 cross_line
  unfold preRateTarget
  rw [hcurv, hcte]
  unfold speedPlan
  norm_num

theorem controller_snd_eq (cs : CState) (s : VState) (prm : List ℝ)
    (track : List Point) :
    (controller cs s prm track).1.2 =
      if 0 < s.v then clip (preRateTarget cs s track) (s.v - 10.0) (s.v + 10.0)
      else preRateTarget cs s track := rfl

theorem controller_fst_eq (cs : CState) (s : VState) (prm : List ℝ)
    (track : List Point) :
    (controller cs s prm track).1.1 = steerOf cs s track := rfl

/-- Claim C2 counterexample: on a straight ten-point track with the
vehicle at rest (velocity 0) on the first track point, the outer layer
returns desired velocity 35, which differs from the current velocity by
more than the 10 m/s delta band — the rate limit is skipped whenever the
velocity is not positive. -/
theorem velocity_band_counterexample :
    trackLine ≠ [] ∧
    stZero.v = 0 ∧
    (controller controllerStateInit stZero [] trackLine).1.2 = 35 ∧
    10 < |(controller controllerStateInit stZero [] trackLine).1.2 - stZero.v| := by
  have hout : (controller controllerStateInit stZero [] trackLine).1.2 = 35 := by
    rw [controller_snd_eq, if_neg (by show ¬ ((0 : ℝ) < 0); norm_num)]
    exact target_line
  refine ⟨by simp [trackLine], rfl, hout, ?_⟩
  rw [hout, show stZero.v = (0 : ℝ) from rfl]
  norm_num

/-- Claim C2 amended: whenever the current velocity is positive, the
desired velocity returned by the outer layer differs from it by at most
the 10 m/s delta band (for zero or negative velocity the source skips the
rate limit entirely). -/
theorem velocity_band_of_pos_velocity (cs : CState) (s : VState)
    (prm : List ℝ) (track : List Point) (hv : 0 < s.v) :
    |(controller cs s prm track).1.2 - s.v| ≤ 10 := by
  rw [controller_snd_eq, if_pos hv, abs_le]
  constructor
  · have := lo_le_clip (preRateTarget cs s track) (s.v - 10.0) (s.v + 10.0)
      (by linarith)
    linarith
  · have := clip_le_hi (preRateTarget cs s track) (s.v - 10.0) (s.v + 10.0)
    linarith

theorem velocity_band_of_pos_velocity_witness :
    0 < ((⟨0, 0, 0, 5, 0⟩ : VState)).v ∧
    |(controller controllerStateInit (⟨0, 0, 0, 5, 0⟩ : VState) [] trackTri).1.2 -
      ((⟨0, 0, 0, 5, 0⟩ : VState)).v| ≤ 10 :=
  ⟨by show (0 : ℝ) < 5; norm_num,
   velocity_band_of_pos_velocity controllerStateInit _ [] trackTri
     (by show (0 : ℝ) < 5; norm_num)⟩

theorem closest_corner_origin :
    find_closest_point_on_track zP trackCorner 0 = (0, 0) := by
  have h := find_closest_eq_head zP trackCorner 0 (by simp [trackCorner]) ?hmin
  case hmin =>
    intro j hj
    rw [show trackCorner.getD 0 zP = zP from rfl, pdist_self]
    exact pdist_nonneg _ _
  rw [h, show trackCorner.getD 0 zP = zP from rfl, pdist_self]

theorem closest_corner_off :
    find_closest_point_on_track (((0 : ℝ)), ((-1.5 : ℝ))) trackCorner 0 = (0, 1.5) := by
  have h := find_closest_eq_head (((0 : ℝ)), ((-1.5 : ℝ))) trackCorner 0
    (by simp [trackCorner]) ?hmin
  case hmin =>
    intro j hj
    rw [show trackCorner.getD 0 zP = (((0 : ℝ)), ((0 : ℝ))) from rfl,
        pdist_eval (by norm_num) (show (1.5 : ℝ) ^ 2 = (0 - 0) ^ 2 + (0 - -1.5) ^ 2 by norm_num)]
    rw [show trackCorner.length = 14 from rfl] at hj
    interval_cases j <;>
      (norm_num [trackCorner, List.getD_cons_zero, List.getD_cons_succ]
       <;> exact le_pdist (by norm_num) (by norm_num))
  rw [h, show trackCorner.getD 0 zP = (((0 : ℝ)), ((0 : ℝ))) from rfl,
      pdist_eval (by norm_num) (show (1.5 : ℝ) ^ 2 = (0 - 0) ^ 2 + (0 - -1.5) ^ 2 by norm_num)]

theorem curv_corner : calculate_curvature trackCorner 8 5 = 0.4 := by
  have hv1 : curvV1 trackCorner 8 5 = (((5 : ℝ)), ((0 : ℝ))) := by
    unfold curvV1
    rw [show curvIdxPrev trackCorner 8 5 = 3 from rfl,
        show trackCorner.getD 8 zP = (((8 : ℝ)), ((0 : ℝ))) from rfl,
        show trackCorner.getD 3 zP = (((3 : ℝ)), ((0 : ℝ))) from rfl]
    unfold vsub
    norm_num
  have hv2 : curvV2 trackCorner 8 5 = (((0 : ℝ)), ((5 : ℝ))) := by
    unfold curvV2
    rw [show curvIdxNext trackCorner 8 5 = 13 from rfl,
        show trackCorner.getD 13 zP = (((8 : ℝ)), ((5 : ℝ))) from rfl,
        show trackCorner.getD 8 zP = (((8 : ℝ)), ((0 : ℝ))) from rfl]
    unfold vsub
    norm_num
  have hden : curvDenom trackCorner 8 5 = 125 := by
    unfold curvDenom
    rw [hv1, hv2]
    rw [show vnorm (((5 : ℝ)), ((0 : ℝ))) = 5 from
          sqrt_eval (by norm_num) (by norm_num),
        show vnorm (((0 : ℝ)), ((5 : ℝ))) = 5 from
          sqrt_eval (by norm_num) (by norm_num)]
    rw [show ((5 : ℝ) * 5) = 5 ^ 2 by norm_num, rpow_threehalves (by norm_num)]
    norm_num
  have hcross : curvCross trackCorner 8 5 = 25 := by
    unfold curvCross
    rw [hv1, hv2]
    unfold crossZ
    norm_num
  unfold calculate_curvature
  rw [hden, hcross, if_pos (by norm_num : (1e-6 : ℝ) < 125)]
  rw [abs_of_nonneg (by norm_num)]
  norm_num

theorem cte_corner_off : cteOf controllerStateInit stOff trackCorner = 1.5 := by
  unfold cteOf closestOut
  show (find_closest_point_on_track (((0 : ℝ)), ((-1.5 : ℝ))) trackCorner 0).2 = 1.5
  rw [closest_corner_off]

theorem curvlook_corner_off :
    curvAtLookahead controllerStateInit stOff trackCorner = 0.4 := by
  have hidx : (lookOut controllerStateInit stOff trackCorner).2 = 8 := by
    unfold lookOut closestOut
    rw [cte_corner_off]
    show (find_lookahead_point (((0 : ℝ)), ((-1.5 : ℝ))) trackCorner
      (find_closest_point_on_track (((0 : ℝ)), ((-1.5 : ℝ))) trackCorner 0).1
      (lookaheadDist 0 1.5)).2 = 8
    rw [closest_corner_off, lookaheadDist_eval_mid]
    exact walk_trackCorner 7.2 (by norm_num) (by norm_num)
  unfold curvAtLookahead
  rw [hidx]
  exact curv_corner

theorem cte_corner_origin : cteOf controllerStateInit stZero trackCorner = 0 := by
  unfold cteOf closestOut
  show (find_closest_point_on_track zP trackCorner 0).2 = 0
  rw [closest_corner_origin]

theorem curvlook_corner_origin :
    curvAtLookahead controllerStateInit stZero trackCorner = 0.4 := by
  have hidx : (lookOut controllerStateInit stZero trackCorner).2 = 8 := by
    unfold lookOut closestOut
    rw [cte_corner_origin]
    show (find_lookahead_point zP trackCorner
      (find_closest_point_on_track zP trackCorner 0).1 (lookaheadDist 0 0)).2 = 8
    rw [closest_corner_origin, lookaheadDist_eval_zero]
    exact walk_trackCorner 8 (by norm_num) (by norm_num)
  unfold curvAtLookahead
  rw [hidx]
  exact curv_corner

/-- Claim C5 counterexample: on the corner track with the vehicle 1.5 m
off the first track point, the curvature at the lookahead index is 0.4
(> 0.1), yet the pre-rate-limit target velocity is 12 * 0.85 = 10.2, not
the tight-corner ceiling 12 — the moderate cross-track-error derate also
applies before rate limiting. -/
theorem tight_corner_counterexample :
    0.1 < curvAtLookahead controllerStateInit stOff trackCorner ∧
    preRateTarget controllerStateInit stOff trackCorner = 10.2 ∧
    preRateTarget controllerStateInit stOff trackCorner ≠ 12 := by
  have htarget : preRateTarget controllerStateInit stOff trackCorner = 10.2 := by
    unfold preRateTarget
    rw [curvlook_corner_off, cte_corner_off]
    unfold speedPlan
    norm_num
  refine ⟨?_, htarget, ?_⟩
  · rw [curvlook_corner_off]
    norm_num
  · rw [htarget]
    norm_num

/-- Claim C5 amended: when the curvature at the lookahead index exceeds
0.1 and the cross-track error is not in the moderate band (1, 2], the
pre-rate-limit target velocity equals the tight-corner ceiling 12,
regardless of the current velocity. -/
theorem tight_corner_target_twelve (cs : CState) (s : VState)
    (track : List Point)
    (hcurv : 0.1 < curvAtLookahead cs s track)
    (hcte : cteOf cs s track ≤ 1 ∨ 2 < cteOf cs s track) :
    preRateTarget cs s track = 12 := by
  unfold preRateTarget speedPlan
  rw [if_pos hcurv]
  rcases hcte with hle | hgt
  · rw [if_neg (by push_neg; linarith), if_neg (by push_neg; linarith)]
    norm_num
  · rw [if_pos (by linarith)]
    norm_num [min_def]

theorem tight_corner_target_twelve_witness :
    (0.1 < curvAtLookahead controllerStateInit stZero trackCorner ∧
      (cteOf controllerStateInit stZero trackCorner ≤ 1 ∨
       2 < cteOf controllerStateInit stZero trackCorner)) ∧
    preRateTarget controllerStateInit stZero trackCorner = 12 :=
  ⟨⟨by rw [curvlook_corner_origin]; norm_num,
    Or.inl (by rw [cte_corner_origin]; norm_num)⟩,
   tight_corner_target_twelve controllerStateInit stZero trackCorner
     (by rw [curvlook_corner_origin]; norm_num)
     (Or.inl (by rw [cte_corner_origin]; norm_num))⟩

theorem lower_eval : lower_controller stZero [0.5, 3] [] = some (0.4, 4.5) := by
  unfold lower_controller clip
  norm_num [stZero, List.getD_cons_zero, List.getD_cons_succ, min_def, max_def]

/-- Claim C6: the outer layer's desired steering always lies in the fixed
physical range [-0.9, 0.9], and whenever the inner layer returns a
command, its steering rate lies in the fixed rate range [-0.4, 0.4]. -/
theorem steering_clamped :
    (∀ (cs : CState) (s : VState) (prm : List ℝ) (track : List Point),
      -0.9 ≤ (controller cs s prm track).1.1 ∧
      (controller cs s prm track).1.1 ≤ 0.9) ∧
    (∀ (s : VState) (desired prm : List ℝ) (out : ℝ × ℝ),
      lower_controller s desired prm = some out →
      -0.4 ≤ out.1 ∧ out.1 ≤ 0.4) := by
  constructor
  · intro cs s prm track
    rw [controller_fst_eq]
    unfold steerOf steerCmd
    exact ⟨lo_le_clip _ _ _ (by norm_num), clip_le_hi _ _ _⟩
  · intro s desired prm out h
    unfold lower_controller at h
    by_cases hl : desired.length = 2
    · rw [if_pos hl] at h
      have hout := Option.some.inj h
      rw [← hout]
      exact ⟨lo_le_clip _ _ _ (by norm_num), clip_le_hi _ _ _⟩
    · rw [if_neg hl] at h
      exact absurd h (by simp)

theorem steering_clamped_witness :
    (-0.9 ≤ (controller controllerStateInit stZero [] trackTri).1.1 ∧
      (controller controllerStateInit stZero [] trackTri).1.1 ≤ 0.9) ∧
    (lower_controller stZero [0.5, 3] [] = some (0.4, 4.5) ∧
      -0.4 ≤ (((0.4 : ℝ)), ((4.5 : ℝ))).1 ∧ (((0.4 : ℝ)), ((4.5 : ℝ))).1 ≤ 0.4) :=
  ⟨steering_clamped.1 controllerStateInit stZero [] trackTri,
   ⟨lower_eval, steering_clamped.2 stZero [0.5, 3] [] (0.4, 4.5) lower_eval⟩⟩

/-- Claim C9: the inner layer fails fast (assertion, modelled as `none`)
whenever the desired command is not a 2-element pair, and on any
2-element pair it returns a steering-rate/acceleration command with no
other failure mode. -/
theorem lower_controller_shape_contract :
    (∀ (s : VState) (desired prm : List ℝ), desired.length ≠ 2 →
      lower_controller s desired prm = none) ∧
    (∀ (s : VState) (a b : ℝ) (prm : List ℝ),
      ∃ out : ℝ × ℝ, lower_controller s [a, b] prm = some out) := by
  constructor
  · intro s desired prm h
    unfold lower_controller
    rw [if_neg h]
  · intro s a b prm
    unfold lower_controller
    rw [if_pos (show ([a, b] : List ℝ).length = 2 by simp)]
    exact ⟨_, rfl⟩

theorem lower_controller_shape_contract_witness :
    (([(1 : ℝ), 2, 3] : List ℝ).length ≠ 2 ∧
      lower_controller stZero [1, 2, 3] [] = none) ∧
    ∃ out : ℝ × ℝ, lower_controller stZero [1, 2] [] = some out :=
  ⟨⟨by simp, lower_controller_shape_contract.1 stZero [1, 2, 3] [] (by simp)⟩,
   lower_controller_shape_contract.2 stZero 1 2 []⟩

/-- Claim C10: across any number of outer-layer ticks, the only session
field written is `last_idx`; the `velocity_integral` and
`velocity_prev_error` accumulators are unchanged, and the tick output
does not depend on them (the inner layer touches no session state at
all, as its signature shows). -/
theorem session_state_frame (prm : List ℝ) (track : List Point) (cs : CState)
    (ss : List VState) :
    ((ss.foldl (fun c s => (controller c s prm track).2) cs).velocity_integral =
        cs.velocity_integral ∧
     (ss.foldl (fun c s => (controller c s prm track).2) cs).velocity_prev_error =
        cs.velocity_prev_error) ∧
    (∀ (cs2 : CState) (s : VState), cs2.last_idx = cs.last_idx →
      (controller cs2 s prm track).1 = (controller cs s prm track).1 ∧
      (controller cs2 s prm track).2.last_idx =
        (controller cs s prm track).2.last_idx) := by
  constructor
  · induction ss generalizing cs with
    | nil => exact ⟨rfl, rfl⟩
    | cons s ss ih =>
        rcases ih ((controller cs s prm track).2) with ⟨h1, h2⟩
        constructor
        · simp only [List.foldl_cons]
          rw [h1]
          rfl
        · simp only [List.foldl_cons]
          rw [h2]
          rfl
  · intro cs2 s hcs
    exact ⟨rfl, rfl⟩

theorem session_state_frame_witness :
    ((([] : List VState).foldl (fun c s => (controller c s [] trackTri).2)
        controllerStateInit).velocity_integral =
          controllerStateInit.velocity_integral ∧
     (([] : List VState).foldl (fun c s => (controller c s [] trackTri).2)
        controllerStateInit).velocity_prev_error =
          controllerStateInit.velocity_prev_error) ∧
    ((⟨0, 1, 2⟩ : CState).last_idx = controllerStateInit.last_idx ∧
     (controller (⟨0, 1, 2⟩ : CState) stZero [] trackTri).1 =
       (controller controllerStateInit stZero [] trackTri).1 ∧
     (controller (⟨0, 1, 2⟩ : CState) stZero [] trackTri).2.last_idx =
       (controller controllerStateInit stZero [] trackTri).2.last_idx) :=
  ⟨(session_state_frame [] trackTri controllerStateInit []).1,
   ⟨rfl, (session_state_frame [] trackTri controllerStateInit []).2
     (⟨0, 1, 2⟩ : CState) stZero rfl⟩⟩

theorem cross_tri : curvCross trackTri 1 1 = 0 := by
  unfold curvCross curvV1 curvV2
  rw [show curvIdxPrev trackTri 1 1 = 0 from rfl,
      show curvIdxNext trackTri 1 1 = 2 from rfl,
      show trackTri.getD 1 zP = (((1 : ℝ)), ((0 : ℝ))) from rfl,
      show trackTri.getD 0 zP = (((0 : ℝ)), ((0 : ℝ))) from rfl,
      show trackTri.getD 2 zP = (((2 : ℝ)), ((0 : ℝ))) from rfl]
  unfold vsub crossZ
  norm_num

theorem tiny_v1 : curvV1 trackTiny 1 1 = (((0.01 : ℝ)), ((0 : ℝ))) := by
  unfold curvV1
  rw [show curvIdxPrev trackTiny 1 1 = 0 from rfl,
      show trackTiny.getD 1 zP = (((0.01 : ℝ)), ((0 : ℝ))) from rfl,
      show trackTiny.getD 0 zP = (((0 : ℝ)), ((0 : ℝ))) from rfl]
  unfold vsub
  norm_num

theorem tiny_v2 : curvV2 trackTiny 1 1 = (((0 : ℝ)), ((0.01 : ℝ))) := by
  unfold curvV2
  rw [show curvIdxNext trackTiny 1 1 = 2 from rfl,
      show trackTiny.getD 2 zP = (((0.01 : ℝ)), ((0.01 : ℝ))) from rfl,
      show trackTiny.getD 1 zP = (((0.01 : ℝ)), ((0 : ℝ))) from rfl]
  unfold vsub
  norm_num

theorem tiny_denom : curvDenom trackTiny 1 1 = 1e-6 := by
  unfold curvDenom
  rw [tiny_v1, tiny_v2]
  rw [show vnorm (((0.01 : ℝ)), ((0 : ℝ))) = 0.01 from
        sqrt_eval (by norm_num) (by norm_num),
      show vnorm (((0 : ℝ)), ((0.01 : ℝ))) = 0.01 from
        sqrt_eval (by norm_num) (by norm_num)]
  rw [show ((0.01 : ℝ) * 0.01) = 0.01 ^ 2 by norm_num,
      rpow_threehalves (by norm_num)]
  norm_num

theorem tiny_cross : curvCross trackTiny 1 1 = 0.0001 := by
  unfold curvCross
  rw [tiny_v1, tiny_v2]
  unfold crossZ
  norm_num

/-- Claim C7 counterexample: on a degenerate three-point track the
curvature denominator lands exactly on the floor 1e-6 — which is not
below the floor — yet `calculate_curvature` still returns 0 while the
claimed formula value is 200: the source tests `denom > 1e-6`, so the
zero branch is taken at the floor as well, not only below it. -/
theorem curvature_floor_counterexample :
    curvDenom trackTiny 1 1 = 1e-6 ∧
    ¬ curvDenom trackTiny 1 1 < 1e-6 ∧
    calculate_curvature trackTiny 1 1 = 0 ∧
    curvatureClaimed trackTiny 1 1 = 200 ∧
    calculate_curvature trackTiny 1 1 ≠ curvatureClaimed trackTiny 1 1 := by
  have hcalc : calculate_curvature trackTiny 1 1 = 0 := by
    unfold calculate_curvature
    rw [tiny_denom, if_neg (by norm_num)]
  have hclaim : curvatureClaimed trackTiny 1 1 = 200 := by
    unfold curvatureClaimed
    rw [tiny_denom, tiny_cross, if_neg (by norm_num)]
    rw [abs_of_nonneg (by norm_num)]
    norm_num
  refine ⟨tiny_denom, by rw [tiny_denom]; norm_num, hcalc, hclaim, ?_⟩
  rw [hcalc, hclaim]
  norm_num

/-- Claim C7 amended: `calculate_curvature` equals the two-chord formula
|2 cross| / (|v1| |v2|)^1.5 whenever the denominator is strictly above
the floor 1e-6, and returns exactly 0 when the denominator is at or
below the floor (the source tests strictly above, so the floor itself
falls into the zero branch); in particular the result is 0 whenever the
chord cross product vanishes (collinear sample points). -/
theorem curvature_formula_amended (track : List Point) (idx window : ℕ) :
    calculate_curvature track idx window =
      (if curvDenom track idx window ≤ 1e-6 then 0
       else |2 * curvCross track idx window| / curvDenom track idx window) ∧
    (curvCross track idx window = 0 → calculate_curvature track idx window = 0) := by
  constructor
  · by_cases h : (1e-6 : ℝ) < curvDenom track idx window
    · unfold calculate_curvature
      rw [if_pos h, if_neg (not_le.mpr h)]
      have hd : 0 < curvDenom track idx window := lt_trans (by norm_num) h
      rw [abs_div, abs_of_pos hd]
    · unfold calculate_curvature
      rw [if_neg h, if_pos (not_lt.mp h)]
  · exact calculate_curvature_of_cross_zero track idx window

theorem curvature_formula_amended_witness :
    curvCross trackTri 1 1 = 0 ∧ calculate_curvature trackTri 1 1 = 0 :=
  ⟨cross_tri, (curvature_formula_amended trackTri 1 1).2 cross_tri⟩

theorem cdiv_of_ne (a b : ℝ) (h : b ≠ 0) : cdiv a b = some (a / b) := by
  unfold cdiv
  rw [if_neg h]

theorem lookaheadLoopE_eq (track : List Point) (la : ℝ) :
    ∀ (fuel cur : ℕ) (acc : ℝ),
      lookaheadLoopE track la fuel cur acc =
        some (lookaheadLoop track la fuel cur acc) := by
  intro fuel
  induction fuel with
  | zero => intro cur acc; rfl
  | succ n ih =>
      intro cur acc
      simp only [lookaheadLoopE, lookaheadLoop]
      by_cases h : la ≤ acc +
        pdist (track.getD ((cur + 1) % track.length) zP) (track.getD cur zP)
      · rw [if_pos h, if_pos h,
            cdiv_of_ne _ _ (ne_of_gt (lt_of_lt_of_le (by norm_num)
              (le_max_right (pdist (track.getD ((cur + 1) % track.length) zP)
                (track.getD cur zP)) 0.001)))]
        rfl
      · rw [if_neg h, if_neg h]
        exact ih _ _

theorem find_lookahead_pointE_eq (pos : Point) (track : List Point)
    (start : ℕ) (la : ℝ) :
    find_lookahead_pointE pos track start la =
      some (find_lookahead_point pos track start la) :=
  lookaheadLoopE_eq track la track.length start 0

theorem curvatureE_eq (track : List Point) (idx window : ℕ) :
    calculate_curvatureE track idx window =
      some (calculate_curvature track idx window) := by
  unfold calculate_curvatureE calculate_curvature
  by_cases h : (1e-6 : ℝ) < curvDenom track idx window
  · rw [if_pos h, if_pos h,
        cdiv_of_ne _ _ (ne_of_gt (lt_trans (by norm_num) h))]
    rfl
  · rw [if_neg h, if_neg h]

theorem steerE_eq (pos : Point) (heading : ℝ) (lp : Point) (cte : ℝ) :
    steerCmdE pos heading lp cte = some (steerCmd pos heading lp cte) := by
  simp only [steerCmdE, steerCmd]
  split
  next h =>
    have hL : (0 : ℝ) < Real.sqrt
        ((Real.cos heading * (lp.1 - pos.1) + Real.sin heading * (lp.2 - pos.2)) ^ 2 +
         (-Real.sin heading * (lp.1 - pos.1) + Real.cos heading * (lp.2 - pos.2)) ^ 2) :=
      lt_trans (by norm_num) h
    rw [cdiv_of_ne _ _ (ne_of_gt (mul_pos hL hL))]
    rfl
  next h => rfl

/-- Claim C3: the outer-layer tick is total — with every division of the
source routed through checked division, the checked evaluation never
fails and agrees with the total embedding, because every division is
guarded (segment-length floor in the lookahead interpolation, denominator
floor in the curvature formula, and the L > 0.1 check before the
pure-pursuit division with zero steering in the degenerate branch). -/
theorem controller_total_no_error (cs : CState) (s : VState) (prm : List ℝ)
    (track : List Point) (h : track ≠ []) :
    controllerE cs s prm track = some (controller cs s prm track).1 := by
  unfold controllerE
  simp only [find_lookahead_pointE_eq, steerE_eq, curvatureE_eq, Option.some_bind]
  rfl

theorem controller_total_no_error_witness :
    trackTri ≠ [] ∧
    controllerE controllerStateInit stZero [] trackTri =
      some (controller controllerStateInit stZero [] trackTri).1 :=
  ⟨by simp [trackTri],
   controller_total_no_error controllerStateInit stZero [] trackTri
     (by simp [trackTri])⟩

theorem segLen_add_length (track : List Point) (a : ℕ) :
    segLen track (a + track.length) = segLen track a := by
  unfold segLen
  rw [show a + track.length + 1 = a + 1 + track.length by omega,
      Nat.add_mod_right, Nat.add_mod_right]

theorem segLen_mod_base (track : List Point) (a j : ℕ) :
    segLen track (a % track.length + j) = segLen track (a + j) := by
  unfold segLen
  rw [show a % track.length + j + 1 = a % track.length + (j + 1) by omega,
      Nat.mod_add_mod, Nat.mod_add_mod,
      show a + (j + 1) = a + j + 1 by omega]

theorem cycSum_mod_base (track : List Point) (a k : ℕ) :
    cycSum track (a % track.length) k = cycSum track a k := by
  unfold cycSum
  exact Finset.sum_congr rfl fun j _ => segLen_mod_base track a j

theorem cycSum_succ_front (track : List Point) (start k : ℕ) :
    cycSum track start (k + 1) =
      segLen track start + cycSum track (start + 1) k := by
  unfold cycSum
  rw [Finset.sum_range_succ']
  have h : (∑ i ∈ Finset.range k, segLen track (start + (i + 1))) =
      ∑ i ∈ Finset.range k, segLen track (start + 1 + i) :=
    Finset.sum_congr rfl fun i _ => by rw [show start + (i + 1) = start + 1 + i by omega]
  rw [h]
  simp only [Nat.add_zero, add_zero]
  ring

theorem cycSum_shift (track : List Point) (start : ℕ) :
    cycSum track (start + 1) track.length = cycSum track start track.length := by
  cases hn : track.length with
  | zero => rfl
  | succ m =>
      have hback : cycSum track (start + 1) (m + 1) =
          cycSum track (start + 1) m + segLen track (start + 1 + m) := by
        unfold cycSum
        exact Finset.sum_range_succ _ m
      have hfront : cycSum track start (m + 1) =
          segLen track start + cycSum track (start + 1) m :=
        cycSum_succ_front track start m
      have hper : segLen track (start + 1 + m) = segLen track start := by
        rw [show start + 1 + m = start + (m + 1) by omega, ← hn]
        exact segLen_add_length track start
      rw [hback, hfront, hper, add_comm]

theorem cycSum_rotate (track : List Point) :
    ∀ start, cycSum track start track.length = totalLen track := by
  intro start
  induction start with
  | zero => rfl
  | succ s ih => rw [cycSum_shift track s, ih]

theorem cycSum_mono_len (track : List Point) (start : ℕ) {k1 k2 : ℕ}
    (h : k1 ≤ k2) : cycSum track start k1 ≤ cycSum track start k2 := by
  unfold cycSum
  apply Finset.sum_le_sum_of_subset_of_nonneg (Finset.range_subset.mpr h)
  intro i _ _
  unfold segLen
  exact pdist_nonneg _ _

theorem segLen_of_lt (track : List Point) (cur : ℕ) (h : cur < track.length) :
    segLen track cur =
      pdist (track.getD ((cur + 1) % track.length) zP) (track.getD cur zP) := by
  unfold segLen
  rw [Nat.mod_eq_of_lt h]

theorem lookaheadLoop_no_trigger (track : List Point) (la : ℝ) :
    ∀ (fuel cur : ℕ) (acc : ℝ), cur < track.length →
      (∀ k, k < fuel → acc + cycSum track cur (k + 1) < la) →
      lookaheadLoop track la fuel cur acc =
        (track.getD ((cur + fuel) % track.length) zP,
         (cur + fuel) % track.length) := by
  intro fuel
  induction fuel with
  | zero =>
      intro cur acc hcur _
      simp only [lookaheadLoop]
      rw [Nat.add_zero, Nat.mod_eq_of_lt hcur]
  | succ n ih =>
      intro cur acc hcur hall
      have h1 : cycSum track cur 1 = segLen track cur := by
        unfold cycSum
        rw [Finset.sum_range_one, Nat.add_zero]
      have hseg : acc + pdist (track.getD ((cur + 1) % track.length) zP)
          (track.getD cur zP) < la := by
        rw [← segLen_of_lt track cur hcur, ← h1]
        exact hall 0 (Nat.succ_pos n)
      simp only [lookaheadLoop]
      rw [if_neg (not_le.mpr hseg)]
      have hnext : (cur + 1) % track.length < track.length :=
        Nat.mod_lt _ (by omega)
      have hrec := ih ((cur + 1) % track.length)
        (acc + pdist (track.getD ((cur + 1) % track.length) zP) (track.getD cur zP))
        hnext ?steps
      case steps =>
        intro k hk
        rw [cycSum_mod_base track (cur + 1) (k + 1)]
        have hfront : cycSum track cur (k + 2) =
            segLen track cur + cycSum track (cur + 1) (k + 1) :=
          cycSum_succ_front track cur (k + 1)
        have hstep := hall (k + 1) (by omega)
        rw [hfront] at hstep
        rw [← segLen_of_lt track cur hcur]
        linarith
      rw [hrec]
      have hidx : ((cur + 1) % track.length + n) % track.length =
          (cur + (n + 1)) % track.length := by
        rw [Nat.mod_add_mod]
        congr 1
        omega
      rw [hidx]

theorem lookStepsLoop_no_trigger (track : List Point) (la : ℝ) :
    ∀ (fuel cur : ℕ) (acc : ℝ), cur < track.length →
      (∀ k, k < fuel → acc + cycSum track cur (k + 1) < la) →
      lookStepsLoop track la fuel cur acc = fuel := by
  intro fuel
  induction fuel with
  | zero =>
      intro cur acc hcur _
      rfl
  | succ n ih =>
      intro cur acc hcur hall
      have h1 : cycSum track cur 1 = segLen track cur := by
        unfold cycSum
        rw [Finset.sum_range_one, Nat.add_zero]
      have hseg : acc + pdist (track.getD ((cur + 1) % track.length) zP)
          (track.getD cur zP) < la := by
        rw [← segLen_of_lt track cur hcur, ← h1]
        exact hall 0 (Nat.succ_pos n)
      simp only [lookStepsLoop]
      rw [if_neg (not_le.mpr hseg)]
      have hnext : (cur + 1) % track.length < track.length :=
        Nat.mod_lt _ (by omega)
      rw [ih ((cur + 1) % track.length)
        (acc + pdist (track.getD ((cur + 1) % track.length) zP) (track.getD cur zP))
        hnext ?steps]
      case steps =>
        intro k hk
        rw [cycSum_mod_base track (cur + 1) (k + 1)]
        have hfront : cycSum track cur (k + 2) =
            segLen track cur + cycSum track (cur + 1) (k + 1) :=
          cycSum_succ_front track cur (k + 1)
        have hstep := hall (k + 1) (by omega)
        rw [hfront] at hstep
        rw [← segLen_of_lt track cur hcur]
        linarith
      omega

theorem lookaheadLoop_idx_steps (track : List Point) (la : ℝ) :
    ∀ (fuel cur : ℕ) (acc : ℝ), cur < track.length →
      (lookaheadLoop track la fuel cur acc).2 =
        (cur + lookStepsLoop track la fuel cur acc) % track.length := by
  intro fuel
  induction fuel with
  | zero =>
      intro cur acc hcur
      simp only [lookaheadLoop, lookStepsLoop]
      rw [Nat.add_zero, Nat.mod_eq_of_lt hcur]
  | succ n ih =>
      intro cur acc hcur
      simp only [lookaheadLoop, lookStepsLoop]
      by_cases h : la ≤ acc +
        pdist (track.getD ((cur + 1) % track.length) zP) (track.getD cur zP)
      · rw [if_pos h, if_pos h]
      · rw [if_neg h, if_neg h]
        have hnext : (cur + 1) % track.length < track.length :=
          Nat.mod_lt _ (by omega)
        rw [ih _ _ hnext, Nat.mod_add_mod]
        congr 1
        omega

theorem lookStepsLoop_mono (track : List Point) {la1 la2 : ℝ} (h : la1 ≤ la2) :
    ∀ (fuel cur : ℕ) (acc : ℝ),
      lookStepsLoop track la1 fuel cur acc ≤ lookStepsLoop track la2 fuel cur acc := by
  intro fuel
  induction fuel with
  | zero =>
      intro cur acc
      exact Nat.le_refl _
  | succ n ih =>
      intro cur acc
      simp only [lookStepsLoop]
      by_cases h2 : la2 ≤ acc +
        pdist (track.getD ((cur + 1) % track.length) zP) (track.getD cur zP)
      · rw [if_pos h2, if_pos (le_trans h h2)]
      · rw [if_neg h2]
        by_cases h1 : la1 ≤ acc +
          pdist (track.getD ((cur + 1) % track.length) zP) (track.getD cur zP)
        · rw [if_pos h1]
          exact Nat.le_add_right 1 _
        · rw [if_neg h1]
          exact Nat.add_le_add_left (ih _ _) 1

theorem seg_tri_0 : segLen trackTri 0 = 1 := by
  rw [segLen_of_lt trackTri 0 (by show (0 : ℕ) < 3; norm_num)]
  rw [show ((0 : ℕ) + 1) % trackTri.length = 1 from rfl,
      show trackTri.getD 1 zP = (((1 : ℝ)), ((0 : ℝ))) from rfl,
      show trackTri.getD 0 zP = (((0 : ℝ)), ((0 : ℝ))) from rfl]
  exact pdist_eval (by norm_num) (by norm_num)

theorem seg_tri_1 : segLen trackTri 1 = 1 := by
  rw [segLen_of_lt trackTri 1 (by show (1 : ℕ) < 3; norm_num)]
  rw [show ((1 : ℕ) + 1) % trackTri.length = 2 from rfl,
      show trackTri.getD 2 zP = (((2 : ℝ)), ((0 : ℝ))) from rfl,
      show trackTri.getD 1 zP = (((1 : ℝ)), ((0 : ℝ))) from rfl]
  exact pdist_eval (by norm_num) (by norm_num)

theorem seg_tri_2 : segLen trackTri 2 = 2 := by
  rw [segLen_of_lt trackTri 2 (by show (2 : ℕ) < 3; norm_num)]
  rw [show ((2 : ℕ) + 1) % trackTri.length = 0 from rfl,
      show trackTri.getD 0 zP = (((0 : ℝ)), ((0 : ℝ))) from rfl,
      show trackTri.getD 2 zP = (((2 : ℝ)), ((0 : ℝ))) from rfl]
  exact pdist_eval (by norm_num) (by norm_num)

theorem totalLen_tri : totalLen trackTri = 4 := by
  unfold totalLen cycSum
  rw [show trackTri.length = 3 from rfl,
      Finset.sum_range_succ, Finset.sum_range_succ, Finset.sum_range_one]
  rw [show (0 : ℕ) + 0 = 0 from rfl, show (0 : ℕ) + 1 = 1 from rfl,
      show (0 : ℕ) + 2 = 2 from rfl, seg_tri_0, seg_tri_1, seg_tri_2]
  norm_num

/-- Claim C4 counterexample: on the three-point track (total length 4)
with start index 0 and lookahead distance 10, `find_lookahead_point`
returns the start point itself with index 0 after the full traversal —
not the start point's cyclic predecessor (index 2). -/
theorem lookahead_overrun_counterexample :
    totalLen trackTri < 10 ∧
    find_lookahead_point zP trackTri 0 10 = ((((0 : ℝ)), ((0 : ℝ))), 0) ∧
    (find_lookahead_point zP trackTri 0 10).2 ≠ 2 := by
  refine ⟨by rw [totalLen_tri]; norm_num, walk_trackTri_overrun, ?_⟩
  rw [walk_trackTri_overrun]
  norm_num

/-- Claim C4 amended: when the lookahead distance exceeds the total track
length, the walk terminates after exactly one full cyclic traversal
(exactly `n` segment steps) and returns the start point itself together
with the start index (the point last visited, since after `n` steps the
walk has wrapped back to the start). -/
theorem lookahead_overrun_returns_start (pos : Point) (track : List Point)
    (start : ℕ) (la : ℝ) (h0 : 0 < track.length) (hs : start < track.length)
    (hla : totalLen track < la) :
    find_lookahead_point pos track start la = (track.getD start zP, start) ∧
    lookSteps track start la = track.length := by
  have hall : ∀ k, k < track.length → (0 : ℝ) + cycSum track start (k + 1) < la := by
    intro k hk
    have h1 : cycSum track start (k + 1) ≤ cycSum track start track.length :=
      cycSum_mono_len track start (by omega)
    have h2 : cycSum track start track.length = totalLen track :=
      cycSum_rotate track start
    rw [zero_add]
    linarith
  constructor
  · have hrun := lookaheadLoop_no_trigger track la track.length start 0 hs hall
    rw [Nat.add_mod_right, Nat.mod_eq_of_lt hs] at hrun
    exact hrun
  · exact lookStepsLoop_no_trigger track la track.length start 0 hs hall

theorem lookahead_overrun_returns_start_witness :
    (0 < trackTri.length ∧ totalLen trackTri < 10) ∧
    (find_lookahead_point zP trackTri 0 10 = (trackTri.getD 0 zP, 0) ∧
     lookSteps trackTri 0 10 = trackTri.length) :=
  ⟨⟨by show (0 : ℕ) < 3; norm_num, by rw [totalLen_tri]; norm_num⟩,
   lookahead_overrun_returns_start zP trackTri 0 10
     (by show (0 : ℕ) < 3; norm_num) (by show (0 : ℕ) < 3; norm_num)
     (by rw [totalLen_tri]; norm_num)⟩

/-- Claim C8: for a fixed start index, a larger lookahead distance (both
within the total track length) never yields a returned position that is
less far along the cycle in accumulated arc length: the consumed step
count is monotone in the distance, the accumulated arc length at the
returned step count is monotone, and the returned index is the start
index advanced by the consumed steps, cyclically. -/
theorem lookahead_monotone (pos : Point) (track : List Point) (start : ℕ)
    (d1 d2 : ℝ) (h0 : 0 < track.length) (hs : start < track.length)
    (h01 : 0 ≤ d1) (h12 : d1 ≤ d2) (h2t : d2 ≤ totalLen track) :
    cycSum track start (lookSteps track start d1) ≤
      cycSum track start (lookSteps track start d2) ∧
    (find_lookahead_point pos track start d1).2 =
      (start + lookSteps track start d1) % track.length ∧
    (find_lookahead_point pos track start d2).2 =
      (start + lookSteps track start d2) % track.length :=
  ⟨cycSum_mono_len track start (lookStepsLoop_mono track h12 track.length start 0),
   lookaheadLoop_idx_steps track d1 track.length start 0 hs,
   lookaheadLoop_idx_steps track d2 track.length start 0 hs⟩

theorem lookahead_monotone_witness :
    (0 < trackTri.length ∧ (0 : ℝ) ≤ 1 ∧ (1 : ℝ) ≤ 2 ∧
      (2 : ℝ) ≤ totalLen trackTri) ∧
    (cycSum trackTri 0 (lookSteps trackTri 0 1) ≤
      cycSum trackTri 0 (lookSteps trackTri 0 2) ∧
     (find_lookahead_point zP trackTri 0 1).2 =
       (0 + lookSteps trackTri 0 1) % trackTri.length ∧
     (find_lookahead_point zP trackTri 0 2).2 =
       (0 + lookSteps trackTri 0 2) % trackTri.length) :=
  ⟨⟨by show (0 : ℕ) < 3; norm_num, by norm_num, by norm_num,
    by rw [totalLen_tri]; norm_num⟩,
   lookahead_monotone zP trackTri 0 1 2 (by show (0 : ℕ) < 3; norm_num)
     (by show (0 : ℕ) < 3; norm_num) (by norm_num) (by norm_num)
     (by rw [totalLen_tri]; norm_num)⟩

/-- Claim C1: `find_closest_point_on_track` returns the index minimizing
the Euclidean distance to the position over the full sequence together
with that minimal distance; ties resolve to the lowest index, and the
result does not depend on the hint index. -/
theorem closest_point_minimizes (pos : Point) (track : List Point)
    (hint hint' : ℕ) (h : track ≠ []) :
    (find_closest_point_on_track pos track hint).1 < track.length ∧
    (find_closest_point_on_track pos track hint).2 =
      pdist (track.getD (find_closest_point_on_track pos track hint).1 zP) pos ∧
    (∀ j, j < track.length →
      (find_closest_point_on_track pos track hint).2 ≤ pdist (track.getD j zP) pos) ∧
    (∀ j, j < (find_closest_point_on_track pos track hint).1 →
      (find_closest_point_on_track pos track hint).2 < pdist (track.getD j zP) pos) ∧
    find_closest_point_on_track pos track hint =
      find_closest_point_on_track pos track hint' := by
  have hne : (track.map fun p => pdist p pos) ≠ [] := by
    simpa using h
  rcases argminList_spec _ hne with ⟨hlen, hmin, hfirst⟩
  rw [List.length_map] at hlen
  refine ⟨?_, ?_, ?_, ?_, rfl⟩
  · rw [find_closest_fst]
    exact hlen
  · rw [find_closest_fst, find_closest_snd, getD_map _ _ _ hlen]
  · intro j hj
    rw [find_closest_snd]
    have := hmin j (by rwa [List.length_map])
    rwa [getD_map _ _ _ hj] at this
  · intro j hj
    rw [find_closest_fst] at hj
    rw [find_closest_snd]
    have := hfirst j hj
    rwa [getD_map _ _ _ (lt_trans hj hlen)] at this

theorem closest_point_minimizes_witness :
    ([((0 : ℝ), (0 : ℝ))] : List Point) ≠ [] ∧
    ((find_closest_point_on_track zP [zP] 0).1 < 1 ∧
     (find_closest_point_on_track zP [zP] 0).2 =
       pdist (([zP] : List Point).getD (find_closest_point_on_track zP [zP] 0).1 zP) zP ∧
     (∀ j, j < ([zP] : List Point).length →
       (find_closest_point_on_track zP [zP] 0).2 ≤
         pdist (([zP] : List Point).getD j zP) zP) ∧
     (∀ j, j < (find_closest_point_on_track zP [zP] 0).1 →
       (find_closest_point_on_track zP [zP] 0).2 <
         pdist (([zP] : List Point).getD j zP) zP) ∧
     find_closest_point_on_track zP [zP] 0 = find_closest_point_on_track zP [zP] 7) :=
  ⟨by simp [zP], closest_point_minimizes zP [zP] 0 7 (by simp [zP])⟩
